import Mathlib

/-!
# Verification of `tf_utils` tensor-graph building blocks

Shallow embedding of `src/python_ops/conv_ops.py` and `src/python_ops/ops.py`.

Modelling decisions:
* Rank-4 tensors used by the convolution family (`conv_ops.py`) are modelled by
  `Tensor4`: a runtime shape (`dims`, the value `tf.shape` would return), a
  static shape (`static`, the value `get_shape().as_list()` would return, with
  `none` for unknown dimensions), and a total valuation function over `ℚ`
  (TensorFlow floats are modelled by exact rationals).
* General tensors used by `ops.py` and `spatial_softmax` are modelled by
  `TensorR`: a shape list and a valuation over `ℝ` (needed because
  `spatial_softmax` applies `tf.exp` and `norm` raises to real powers).
* Python `assert` failures and unpacking errors are modelled by
  `Except String`; the strings mirror the assertion messages of the source.
* The variable registry (`scoped_variable`, in module `base`, which is not part
  of `src/`) is an external collaborator per the spec; the kernel values it
  returns are passed in as an explicit argument `K`, and the shape that the
  source requests from it is recorded in the result record.
* `_default_value` (module `base`, not in `src/`) fills the `stride` and `pad`
  fields with `(1,1,1,1)` and `SAME` when absent; the parameter record here
  carries the already-resolved fields.
* Python integers are modelled by `ℕ`; the source's size arithmetic
  (`w * sw + kw - 1` etc.) only ever subtracts from values that the theorems
  require to be large enough, so natural subtraction agrees with Python.
-/

namespace TfUtils

/-- Padding modes accepted by `conv` (`deconv` accepts `SAME`/`VALID`). -/
inductive Pad where
  | SAME
  | VALID
  | CONSTANT
deriving DecidableEq, Repr

/-- A rank-4 tensor `[batch, width, height, channels]`:
runtime shape `dims` (what `tf.shape` yields), static shape `static`
(what `get_shape().as_list()` yields, `none` = unknown), and values. -/
structure Tensor4 where
  dims : ℕ × ℕ × ℕ × ℕ
  static : Option ℕ × Option ℕ × Option ℕ × Option ℕ
  val : ℕ → ℕ → ℕ → ℕ → ℚ

/-- The layer parameter dictionary (`param`), after `_default_value` has
filled `stride` and `pad`.  `kernel` is the kernel tuple as a list. -/
structure ConvParam where
  kernel : List ℕ
  stride : ℕ × ℕ × ℕ × ℕ
  pad : Pad
  bias : Bool

/-- Python truthiness of an optional dimension (`None` and `0` are falsy),
as used by `if c_in:` and `if w and h:` in `deconv`. -/
def pyTruthy : Option ℕ → Bool
  | none => false
  | some n => decide (n ≠ 0)

/-- `X[:, :1]` — the first width slice. -/
def sliceFirstW (X : Tensor4) : Tensor4 :=
  ⟨(X.dims.1, 1, X.dims.2.2.1, X.dims.2.2.2),
   (X.static.1, some 1, X.static.2.2.1, X.static.2.2.2),
   fun b _ j c => X.val b 0 j c⟩

/-- `X[:, -1:]` — the last width slice. -/
def sliceLastW (X : Tensor4) : Tensor4 :=
  ⟨(X.dims.1, 1, X.dims.2.2.1, X.dims.2.2.2),
   (X.static.1, some 1, X.static.2.2.1, X.static.2.2.2),
   fun b _ j c => X.val b (X.dims.2.1 - 1) j c⟩

/-- `X[:, :, :1]` — the first height slice. -/
def sliceFirstH (X : Tensor4) : Tensor4 :=
  ⟨(X.dims.1, X.dims.2.1, 1, X.dims.2.2.2),
   (X.static.1, X.static.2.1, some 1, X.static.2.2.2),
   fun b i _ c => X.val b i 0 c⟩

/-- `X[:, :, -1:]` — the last height slice. -/
def sliceLastH (X : Tensor4) : Tensor4 :=
  ⟨(X.dims.1, X.dims.2.1, 1, X.dims.2.2.2),
   (X.static.1, X.static.2.1, some 1, X.static.2.2.2),
   fun b i _ c => X.val b i (X.dims.2.2.1 - 1) c⟩

/-- `tf.tile(X, (1, n, 1, 1))` — repeat along the width axis. -/
def tileW (X : Tensor4) (n : ℕ) : Tensor4 :=
  ⟨(X.dims.1, X.dims.2.1 * n, X.dims.2.2.1, X.dims.2.2.2),
   (X.static.1, X.static.2.1.map (· * n), X.static.2.2.1, X.static.2.2.2),
   fun b i j c => X.val b (i % X.dims.2.1) j c⟩

/-- `tf.tile(X, (1, 1, n, 1))` — repeat along the height axis. -/
def tileH (X : Tensor4) (n : ℕ) : Tensor4 :=
  ⟨(X.dims.1, X.dims.2.1, X.dims.2.2.1 * n, X.dims.2.2.2),
   (X.static.1, X.static.2.1, X.static.2.2.1.map (· * n), X.static.2.2.2),
   fun b i j c => X.val b i (j % X.dims.2.2.1) c⟩

/-- `tf.concat(1, [A, B, C])` — concatenation of three tensors along width. -/
def concatW3 (A B C : Tensor4) : Tensor4 :=
  ⟨(A.dims.1, A.dims.2.1 + B.dims.2.1 + C.dims.2.1, A.dims.2.2.1, A.dims.2.2.2),
   (A.static.1, none, A.static.2.2.1, A.static.2.2.2),
   fun b i j c =>
     if i < A.dims.2.1 then A.val b i j c
     else if i < A.dims.2.1 + B.dims.2.1 then B.val b (i - A.dims.2.1) j c
     else C.val b (i - A.dims.2.1 - B.dims.2.1) j c⟩

/-- `tf.concat(2, [A, B, C])` — concatenation of three tensors along height. -/
def concatH3 (A B C : Tensor4) : Tensor4 :=
  ⟨(A.dims.1, A.dims.2.1, A.dims.2.2.1 + B.dims.2.2.1 + C.dims.2.2.1, A.dims.2.2.2),
   (A.static.1, A.static.2.1, none, A.static.2.2.2),
   fun b i j c =>
     if j < A.dims.2.2.1 then A.val b i j c
     else if j < A.dims.2.2.1 + B.dims.2.2.1 then B.val b i (j - A.dims.2.2.1) c
     else C.val b i (j - A.dims.2.2.1 - B.dims.2.2.1) c⟩

/-- `_constant_pad(X, ker_shape)` from `conv_ops.py`: replicate the edge
slices `kw//2` / `kw - kw//2 - 1` times along the width axis, then
`kh//2` / `kh - kh//2 - 1` times along the height axis, by concatenation
of tiled edge slices with the original tensor.  Only `ker_shape[:2]`
is consumed, so only `kw` and `kh` are taken here. -/
def constant_pad (X : Tensor4) (kw kh : ℕ) : Tensor4 :=
  let wb := kw / 2
  let wa := kw - kw / 2 - 1
  let hb := kh / 2
  let ha := kh - kh / 2 - 1
  let X1 := concatW3 (tileW (sliceFirstW X) wb) X (tileW (sliceLastW X) wa)
  concatH3 (tileH (sliceFirstH X1) hb) X1 (tileH (sliceLastH X1) ha)

/-- `tf.ones` channel appended by the `bias` option:
`tf.concat(3, [X, tf.ones(...)])`. -/
def appendOnesChannel (X : Tensor4) : Tensor4 :=
  ⟨(X.dims.1, X.dims.2.1, X.dims.2.2.1, X.dims.2.2.2 + 1),
   (X.static.1, X.static.2.1, X.static.2.2.1, X.static.2.2.2.map (· + 1)),
   fun b i j c => if c < X.dims.2.2.2 then X.val b i j c else 1⟩

/-- `tf.nn.conv2d(X, K, stride, padding)`: the engine's convolution
primitive.  `VALID` reads only in-range input positions; `SAME` zero-pads
so that the output spatial size is `ceil(size / stride)`. -/
def tfConv2d (X : Tensor4) (K : ℕ → ℕ → ℕ → ℕ → ℚ)
    (kw kh cin cout sw sh : ℕ) (pad : Pad) : Tensor4 :=
  match pad with
  | .VALID =>
      let ow := if kw ≤ X.dims.2.1 then (X.dims.2.1 - kw) / sw + 1 else 0
      let oh := if kh ≤ X.dims.2.2.1 then (X.dims.2.2.1 - kh) / sh + 1 else 0
      ⟨(X.dims.1, ow, oh, cout),
       (X.static.1, none, none, some cout),
       fun b i j co =>
         ∑ dw ∈ Finset.range kw, ∑ dh ∈ Finset.range kh, ∑ ci ∈ Finset.range cin,
           X.val b (i * sw + dw) (j * sh + dh) ci * K dw dh ci co⟩
  | _ =>
      let w := X.dims.2.1
      let h := X.dims.2.2.1
      let ow := (w + sw - 1) / sw
      let oh := (h + sh - 1) / sh
      let pw := (((ow - 1) * sw + kw) - w) / 2
      let ph := (((oh - 1) * sh + kh) - h) / 2
      ⟨(X.dims.1, ow, oh, cout),
       (X.static.1, none, none, some cout),
       fun b i j co =>
         ∑ dw ∈ Finset.range kw, ∑ dh ∈ Finset.range kh, ∑ ci ∈ Finset.range cin,
           (if pw ≤ i * sw + dw ∧ i * sw + dw - pw < w ∧
               ph ≤ j * sh + dh ∧ j * sh + dh - ph < h then
              X.val b (i * sw + dw - pw) (j * sh + dh - ph) ci
            else 0) * K dw dh ci co⟩

/-- What a convolution layer call produces: the shape that was requested
from the variable registry for the kernel parameter, and the output tensor. -/
structure ConvResult where
  kerShape : List ℕ
  out : Tensor4

/-- `conv(X, param, name)` from `conv_ops.py`.  `K` is the kernel value the
registry collaborator returns (its requested shape is recorded in the
result).  Failure cases: the kernel tuple does not unpack into three
components, the input channel count is statically unknown (the kernel shape
passed to the registry would be malformed), or `CONSTANT` padding is
combined with a non-identity stride (the source's `assert`). -/
def conv (X : Tensor4) (param : ConvParam) (K : ℕ → ℕ → ℕ → ℕ → ℚ) :
    Except String ConvResult :=
  match param.kernel with
  | [kw, kh, c_out] =>
    match X.static.2.2.2 with
    | none => .error "input channel count unknown"
    | some c0 =>
      let c_in := if param.bias then c0 + 1 else c0
      let Xb := if param.bias then appendOnesChannel X else X
      let kerShape := [kw, kh, c_in, c_out]
      let sw := param.stride.2.1
      let sh := param.stride.2.2.1
      match param.pad with
      | .CONSTANT =>
          if param.stride = (1, 1, 1, 1) then
            .ok ⟨kerShape,
                 tfConv2d (constant_pad Xb kw kh) K kw kh c_in c_out sw sh .VALID⟩
          else
            .error "AssertionError: param.stride == (1, 1, 1, 1)"
      | p => .ok ⟨kerShape, tfConv2d Xb K kw kh c_in c_out sw sh p⟩
  | _ => .error "ValueError: kernel tuple does not unpack into (kw, kh, c_out)"

/-- What a transposed-convolution layer call produces.  The numeric kernel
application is delegated to the engine (`tf.nn.conv2d_transpose`); the
claims about `deconv` concern the requested kernel-parameter shape, the
dynamically computed `output_shape` argument, and the static shape declared
on the result (via `set_shape` — all-`none` when `set_shape` is skipped). -/
structure DeconvResult where
  kerShape : List ℕ
  outDynamic : ℕ × ℕ × ℕ × ℕ
  outStatic : Option ℕ × Option ℕ × Option ℕ × Option ℕ
deriving DecidableEq, Repr

/-- The tail of `deconv` after channel-count resolution has produced
`kw`, `kh`, `c_out` and `c_in`: bias augmentation, kernel-shape request,
static output-size computation (`b, w, h, _ = X.get_shape().as_list()`),
dynamic output-size computation (from `tf.shape(X)` and the raw
`param.kernel` tuple), and the conditional `set_shape`. -/
def deconvCore (X : Tensor4) (param : ConvParam) (kw kh c_out c_in : ℕ) :
    DeconvResult :=
  let c_in' := if param.bias then c_in + 1 else c_in
  let kerShape := [kw, kh, c_out, c_in']
  let sw := param.stride.2.1
  let sh := param.stride.2.2.1
  let bS := X.static.1
  let wS := X.static.2.1
  let hS := X.static.2.2.1
  let statKnown := pyTruthy wS && pyTruthy hS
  let wOut := wS.getD 0 * sw + (if param.pad = .VALID then kw - 1 else 0)
  let hOut := hS.getD 0 * sh + (if param.pad = .VALID then kh - 1 else 0)
  let dw := X.dims.2.1 * sw + (if param.pad = .VALID then param.kernel.getD 0 0 - 1 else 0)
  let dh := X.dims.2.2.1 * sh + (if param.pad = .VALID then param.kernel.getD 1 0 - 1 else 0)
  let outDynamic := (X.dims.1, dw, dh, param.kernel.getD 2 0)
  let outStatic :=
    if statKnown then (bS, some wOut, some hOut, some c_out)
    else (none, none, none, none)
  ⟨kerShape, outDynamic, outStatic⟩

/-- `deconv(X, param, name)` from `conv_ops.py`: resolve `kw, kh, c_out,
c_in` from the kernel tuple and the statically known channel count, then
run `deconvCore`.  With a truthy static channel count, a length-3 tuple
unpacks as `(kw, kh, c_out)` and a length-4 tuple as
`(kw, kh, c_in_, c_out)` with the source's `assert c_in_ == c_in`; with an
unknown channel count a length-4 tuple unpacks as `(kw, kh, c_out, c_in)`
and anything else hits `assert False`. -/
def deconv (X : Tensor4) (param : ConvParam) : Except String DeconvResult :=
  let c0 := X.static.2.2.2
  if pyTruthy c0 then
    let c := c0.getD 0
    match param.kernel with
    | [kw, kh, c_out] => .ok (deconvCore X param kw kh c_out c)
    | [kw, kh, c_in_, c_out] =>
        if c_in_ = c then .ok (deconvCore X param kw kh c_out c)
        else .error "Inferred and given numbers of input_channels do not agree."
    | _ => .error "ValueError: kernel tuple does not unpack"
  else
    match param.kernel with
    | [kw, kh, c_out, c_in] => .ok (deconvCore X param kw kh c_out c_in)
    | _ => .error "Number of input_channels was not given and could not be inferred."

/-- A tensor of arbitrary rank over `ℝ`, used for `ops.py` and
`spatial_softmax` (whose pipelines change rank and need `Real.exp`).
The static spatial dimensions read by `spatial_softmax` via `get_shape()`
are identified with the runtime shape. -/
structure TensorR where
  shape : List ℕ
  val : List ℕ → ℝ

/-- Elementwise map (`tf.exp`, `tf.pow(·, p)`, …). -/
def tfMap (f : ℝ → ℝ) (t : TensorR) : TensorR :=
  ⟨t.shape, fun idx => f (t.val idx)⟩

/-- One-axis sum reduction with `keep_dims=True`. -/
def reduceAxisKeep (t : TensorR) (a : ℕ) : TensorR :=
  ⟨t.shape.set a 1,
   fun idx => ∑ j ∈ Finset.range (t.shape.getD a 0), t.val (idx.set a j)⟩

/-- `tf.reduce_sum(t, axes, keep_dims=True)`: multi-axis reduction as the
fold of one-axis reductions. -/
def reduceSumKeep (t : TensorR) (axes : List ℕ) : TensorR :=
  axes.foldl reduceAxisKeep t

/-- Re-insert `0` at the removed positions of an index list:
`pos` is the current full-rank position, `fuel` the remaining rank. -/
def expandIdx (axes : List ℕ) : ℕ → ℕ → List ℕ → List ℕ
  | _, 0, _ => []
  | pos, fuel + 1, rem =>
      if pos ∈ axes then 0 :: expandIdx axes (pos + 1) fuel rem
      else
        match rem with
        | [] => 0 :: expandIdx axes (pos + 1) fuel []
        | x :: xs => x :: expandIdx axes (pos + 1) fuel xs

/-- Drop the dimensions at the given positions (the summed axes are
constant after `reduceAxisKeep`, so reading them at `0` is exact). -/
def squeezeAxes (t : TensorR) (axes : List ℕ) : TensorR :=
  ⟨(t.shape.enum.filterMap fun p => if p.1 ∈ axes then none else some p.2),
   fun idx => t.val (expandIdx axes 0 t.shape.length idx)⟩

/-- `tf.reduce_sum(t, axes, keep_dims)`. -/
def reduceSum (t : TensorR) (axes : List ℕ) (keepDims : Bool) : TensorR :=
  if keepDims then reduceSumKeep t axes
  else squeezeAxes (reduceSumKeep t axes) axes

/-- Index adjustment for broadcasting: size-1 dimensions are read at `0`. -/
def bcIdx : List ℕ → List ℕ → List ℕ
  | s :: ss, i :: is => (if s = 1 then 0 else i) :: bcIdx ss is
  | _, _ => []

/-- Elementwise broadcasting binary operation on equal-rank tensors. -/
def tfBinop (f : ℝ → ℝ → ℝ) (A B : TensorR) : TensorR :=
  ⟨A.shape.zipWith max B.shape,
   fun idx => f (A.val (bcIdx A.shape idx)) (B.val (bcIdx B.shape idx))⟩

/-- `A * B` with broadcasting. -/
def tfMul (A B : TensorR) : TensorR := tfBinop (· * ·) A B

/-- `A / B` with broadcasting. -/
noncomputable def tfDiv (A B : TensorR) : TensorR := tfBinop (· / ·) A B

/-- `tf.concat(axis, [A, B])` for two equal-rank tensors. -/
def tfConcat (axis : ℕ) (A B : TensorR) : TensorR :=
  ⟨A.shape.set axis (A.shape.getD axis 0 + B.shape.getD axis 0),
   fun idx =>
     if idx.getD axis 0 < A.shape.getD axis 0 then A.val idx
     else B.val (idx.set axis (idx.getD axis 0 - A.shape.getD axis 0))⟩

/-- `norm(X, axis, keep_dims, p, root)` from `ops.py`:
`Y = tf.reduce_sum(tf.pow(X, p), axis, keep_dims)`, returned as is when
`root` is false and as `tf.pow(Y, 1.0/p)` otherwise.  The axis argument is
taken already in the list form `_validate_axes` (module `base`, not in
`src/`) produces.  Real exponentiation `x ^ p` is `Real.rpow`, which
agrees with `tf.pow` on the evaluated inputs. -/
noncomputable def norm (X : TensorR) (axes : List ℕ) (keepDims : Bool) (p : ℝ) (root : Bool) :
    TensorR :=
  let Y := reduceSum (tfMap (fun x => x ^ p) X) axes keepDims
  if root then tfMap (fun y => y ^ (1 / p)) Y else Y

/-- `normalize(X, axis)` from `ops.py`:
`X / tf.reduce_sum(X, axis, keep_dims=True)`. -/
noncomputable def normalize (X : TensorR) (axes : List ℕ) : TensorR :=
  tfDiv X (reduceSumKeep X axes)

/-- `tf.linspace(0., 1., n)` reshaped to `(1, n, 1)`:
entry `i` is `i / (n - 1)` (a single point sits at the start `0`). -/
noncomputable def linspace01 (n : ℕ) : TensorR :=
  ⟨[1, n, 1], fun idx => if n ≤ 1 then 0 else (idx.getD 1 0 : ℝ) / ((n : ℝ) - 1)⟩

/-- The `fx` pipeline of `spatial_softmax`: sum of `exp X` over axis 1,
normalized over its axis 1, weighted by the width linspace, and reduced. -/
noncomputable def ssFx (X : TensorR) : TensorR :=
  let w := X.shape.getD 1 0
  let E := tfMap Real.exp X
  let f0 := reduceSum E [1] false
  let f1 := tfDiv f0 (reduceSumKeep f0 [1])
  reduceSum (tfMul f1 (linspace01 w)) [1] false

/-- The `fy` pipeline of `spatial_softmax`: sum of `exp X` over axis 2,
normalized over its axis 1, weighted by the height linspace, and reduced. -/
noncomputable def ssFy (X : TensorR) : TensorR :=
  let h := X.shape.getD 2 0
  let E := tfMap Real.exp X
  let f0 := reduceSum E [2] false
  let f1 := tfDiv f0 (reduceSumKeep f0 [1])
  reduceSum (tfMul f1 (linspace01 h)) [1] false

/-- `spatial_softmax(X)` from `conv_ops.py`: `tf.concat(1, [fx, fy])`. -/
noncomputable def spatial_softmax (X : TensorR) : TensorR :=
  tfConcat 1 (ssFx X) (ssFy X)

/-- The nonlinearity argument of a stack: either a single function or a
per-layer list (the source tests `isinstance(nonlin, list)`). -/
inductive NonlinArg (α : Type) where
  | single (f : α → α)
  | list (fs : List (α → α))

/-- The loop body of `generic_stack`: `i` is the enumeration index, `n` the
total layer count.  After each layer the nonlinearity `nonlin[i]` is
applied when `not raw_output or i + 1 < n`; an out-of-range index is
Python's `IndexError`. -/
def stackLoop {α P : Type} (func : α → P → ℕ → α) (nlist : List (α → α))
    (n : ℕ) (raw_output : Bool) : ℕ → α → List P → Except String α
  | _, X, [] => .ok X
  | i, X, p :: rest =>
      let X' := func X p i
      if ¬raw_output ∨ i + 1 < n then
        match nlist.get? i with
        | some f => stackLoop func nlist n raw_output (i + 1) (f X') rest
        | none => .error "IndexError: list index out of range"
      else stackLoop func nlist n raw_output (i + 1) X' rest

/-- `make_stack(func)`'s inner `generic_stack(X, params, nonlin, name,
raw_output)` from `ops.py`: a non-list `nonlin` is replicated to one entry
per layer, then the layers are folded over. -/
def generic_stack {α P : Type} (func : α → P → ℕ → α) (X : α) (params : List P)
    (nonlin : NonlinArg α) (raw_output : Bool) : Except String α :=
  let nlist :=
    match nonlin with
    | .single f => List.replicate params.length f
    | .list fs => fs
  stackLoop func nlist params.length raw_output 0 X params

/-! ## Theorems -/

/-- **C8.** For every call to `conv` with pad mode `CONSTANT` and a stride
other than `(1, 1, 1, 1)`, construction fails with a fatal error; with the
identity stride the `CONSTANT` branch does not fail (given a well-formed
call: a three-component kernel tuple and a known input channel count). -/
theorem conv_constant_requires_identity_stride
    (X : Tensor4) (param : ConvParam) (K : ℕ → ℕ → ℕ → ℕ → ℚ)
    (hpad : param.pad = .CONSTANT) :
    (param.stride ≠ (1, 1, 1, 1) → (conv X param K).isOk = false) ∧
    (∀ kw kh c_out c0, param.stride = (1, 1, 1, 1) →
      param.kernel = [kw, kh, c_out] → X.static.2.2.2 = some c0 →
      (conv X param K).isOk = true) := by
  constructor
  · intro hst
    unfold conv
    split
    · split
      · rfl
      · rw [hpad]
        simp only [if_neg hst]
        rfl
    · rfl
  · intro kw kh c_out c0 hst hker hc
    simp only [conv, hker, hc, hpad, hst, if_pos]
    rfl

/-- Witness for C8 at a concrete input: a `2 × 2` single-channel image,
kernel `(3, 3, 4)`; stride `(1, 2, 2, 1)` with `CONSTANT` padding fails,
stride `(1, 1, 1, 1)` succeeds. -/
theorem conv_constant_requires_identity_stride_witness :
    (conv ⟨(1, 2, 2, 1), (some 1, some 2, some 2, some 1), fun _ _ _ _ => 0⟩
      ⟨[3, 3, 4], (1, 2, 2, 1), .CONSTANT, false⟩ (fun _ _ _ _ => 0)).isOk = false ∧
    (conv ⟨(1, 2, 2, 1), (some 1, some 2, some 2, some 1), fun _ _ _ _ => 0⟩
      ⟨[3, 3, 4], (1, 1, 1, 1), .CONSTANT, false⟩ (fun _ _ _ _ => 0)).isOk = true :=
  ⟨(conv_constant_requires_identity_stride _ _ _ rfl).1 (by decide),
   (conv_constant_requires_identity_stride _ _ _ rfl).2 3 3 4 1 rfl rfl rfl⟩

/-- **C2.** `conv` with pad mode `CONSTANT` and identity stride performs the
underlying convolution in `VALID` mode on the edge-padded input, and the
padded tensor pads the width axis with `kw//2` replicas of the first width
slice before and `kw - kw//2 - 1` replicas of the last width slice after,
then the height axis with `kh//2` / `kh - kh//2 - 1` replicas of the first
and last height slices (edge replication, total padding `k - 1` per axis). -/
theorem conv_constant_edge_padding
    (X : Tensor4) (K : ℕ → ℕ → ℕ → ℕ → ℚ) (kw kh c_out cin : ℕ)
    (hc : X.static.2.2.2 = some cin) (hkw : 1 ≤ kw) (hkh : 1 ≤ kh)
    (hw : 1 ≤ X.dims.2.1) (hh : 1 ≤ X.dims.2.2.1) :
    conv X ⟨[kw, kh, c_out], (1, 1, 1, 1), .CONSTANT, false⟩ K =
      .ok ⟨[kw, kh, cin, c_out],
           tfConv2d (constant_pad X kw kh) K kw kh cin c_out 1 1 .VALID⟩ ∧
    (constant_pad X kw kh).dims =
      (X.dims.1, X.dims.2.1 + kw - 1, X.dims.2.2.1 + kh - 1, X.dims.2.2.2) ∧
    ∀ b i j c,
      (constant_pad X kw kh).val b i j c =
        X.val b
          (if i < kw / 2 then 0
           else if i - kw / 2 < X.dims.2.1 then i - kw / 2 else X.dims.2.1 - 1)
          (if j < kh / 2 then 0
           else if j - kh / 2 < X.dims.2.2.1 then j - kh / 2 else X.dims.2.2.1 - 1)
          c := by
  refine ⟨?_, ?_, ?_⟩
  · simp [conv, hc]
  · simp only [constant_pad, concatH3, concatW3, tileH, tileW,
      sliceFirstH, sliceLastH, sliceFirstW, sliceLastW, one_mul, Prod.mk.injEq]
    exact ⟨trivial, by omega, by omega, trivial⟩
  · intro b i j c
    simp only [constant_pad, concatH3, concatW3, tileH, tileW,
      sliceFirstH, sliceLastH, sliceFirstW, sliceLastW, one_mul, Nat.mod_one]
    split_ifs <;> first
      | rfl
      | omega

/-- Witness for C2 at a concrete input: a `1 × 2 × 2 × 1` tensor with a
`3 × 3` kernel. -/
theorem conv_constant_edge_padding_witness :
    conv ⟨(1, 2, 2, 1), (some 1, some 2, some 2, some 1), fun _ i j _ => (i + 2 * j : ℚ)⟩
        ⟨[3, 3, 4], (1, 1, 1, 1), .CONSTANT, false⟩ (fun _ _ _ _ => 1) =
      .ok ⟨[3, 3, 1, 4],
           tfConv2d (constant_pad
             ⟨(1, 2, 2, 1), (some 1, some 2, some 2, some 1), fun _ i j _ => (i + 2 * j : ℚ)⟩ 3 3)
             (fun _ _ _ _ => 1) 3 3 1 4 1 1 .VALID⟩ ∧
    (constant_pad
      ⟨(1, 2, 2, 1), (some 1, some 2, some 2, some 1), fun _ i j _ => (i + 2 * j : ℚ)⟩ 3 3).dims =
      (1, 4, 4, 1) ∧
    (constant_pad
      ⟨(1, 2, 2, 1), (some 1, some 2, some 2, some 1), fun _ i j _ => (i + 2 * j : ℚ)⟩ 3 3).val
        0 0 2 0 = (2 : ℚ) := by
  refine ⟨?_, ?_, ?_⟩
  · exact (conv_constant_edge_padding _ _ 3 3 4 1 rfl (by decide) (by decide)
      (by decide) (by decide)).1
  · have h := (conv_constant_edge_padding
      ⟨(1, 2, 2, 1), (some 1, some 2, some 2, some 1), fun _ i j _ => (i + 2 * j : ℚ)⟩
      (fun _ _ _ _ => 1) 3 3 4 1 rfl (by decide) (by decide)
      (by decide) (by decide)).2.1
    simpa using h
  · have h := (conv_constant_edge_padding
      ⟨(1, 2, 2, 1), (some 1, some 2, some 2, some 1), fun _ i j _ => (i + 2 * j : ℚ)⟩
      (fun _ _ _ _ => 1) 3 3 4 1 rfl (by decide) (by decide)
      (by decide) (by decide)).2.2 0 0 2 0
    simpa using h

/-- **C1** (code-bug evidence).  The source's docstring documents the
length-4 kernel tuple of `deconv` as `(kw, kh, C_out, C_in)`, so for an
input with 5 statically known channels the tuple `(3, 3, 8, 5)` (8 output
channels, 5 input channels) should succeed with a kernel parameter of shape
`[3, 3, 8, 5]`, and `(3, 3, 5, 8)` should fail.  The code does the
opposite: the known-channel branch unpacks the tuple as
`(kw, kh, c_in_, c_out)` and asserts `c_in_ == c_in` against position 2,
so `(3, 3, 8, 5)` raises the mismatch assertion, while `(3, 3, 5, 8)`
succeeds and requests a kernel of shape `[3, 3, 8, 5]`. -/
theorem deconv_len4_known_channel_check_is_swapped :
    deconv ⟨(1, 4, 4, 5), (some 1, some 4, some 4, some 5), fun _ _ _ _ => 0⟩
        ⟨[3, 3, 8, 5], (1, 1, 1, 1), .SAME, false⟩ =
      .error "Inferred and given numbers of input_channels do not agree." ∧
    deconv ⟨(1, 4, 4, 5), (some 1, some 4, some 4, some 5), fun _ _ _ _ => 0⟩
        ⟨[3, 3, 5, 8], (1, 1, 1, 1), .SAME, false⟩ =
      .ok ⟨[3, 3, 8, 5], (1, 4, 4, 5), (some 1, some 4, some 4, some 8)⟩ :=
  ⟨rfl, rfl⟩

/-- **C10.** In a `deconv` call with a length-4 kernel tuple
`(t0, t1, t2, t3)` and a fully statically known input shape, the
dynamically computed output shape takes its channel count from tuple
position 2 (`param.kernel[2:3]`), the declared static shape set via
`set_shape` takes its channel count from position 3 (the value unpacked as
`c_out`), and the two agree exactly when `t2 = t3`. -/
theorem deconv_dynamic_vs_declared_channel
    (X : Tensor4) (param : ConvParam) (r : DeconvResult) (t0 t1 t2 t3 : ℕ)
    (hker : param.kernel = [t0, t1, t2, t3])
    (hct : pyTruthy X.static.2.2.2 = true)
    (hwt : pyTruthy X.static.2.1 = true)
    (hht : pyTruthy X.static.2.2.1 = true)
    (hok : deconv X param = .ok r) :
    r.outDynamic.2.2.2 = t2 ∧ r.outStatic.2.2.2 = some t3 ∧
    (r.outStatic.2.2.2 = some r.outDynamic.2.2.2 ↔ t2 = t3) := by
  simp only [deconv, hker, hct, if_true] at hok
  split at hok
  · rename_i ht2
    rw [Except.ok.injEq] at hok
    subst hok
    simp only [deconvCore, hker, hwt, hht, Bool.and_self, if_true]
    simp [eq_comm]
  · exact absurd hok (by simp)

/-- Witness for C10: five statically known input channels, kernel tuple
`(3, 3, 5, 8)`; the dynamic channel count is 5 (position 2), the declared
one is 8 (position 3), and they disagree since `5 ≠ 8`. -/
theorem deconv_dynamic_vs_declared_channel_witness :
    (⟨[3, 3, 8, 5], (1, 4, 4, 5), (some 1, some 4, some 4, some 8)⟩ :
        DeconvResult).outDynamic.2.2.2 = 5 ∧
    (⟨[3, 3, 8, 5], (1, 4, 4, 5), (some 1, some 4, some 4, some 8)⟩ :
        DeconvResult).outStatic.2.2.2 = some 8 ∧
    ((⟨[3, 3, 8, 5], (1, 4, 4, 5), (some 1, some 4, some 4, some 8)⟩ :
        DeconvResult).outStatic.2.2.2 =
      some (⟨[3, 3, 8, 5], (1, 4, 4, 5), (some 1, some 4, some 4, some 8)⟩ :
        DeconvResult).outDynamic.2.2.2 ↔ (5 : ℕ) = 8) :=
  deconv_dynamic_vs_declared_channel
    ⟨(1, 4, 4, 5), (some 1, some 4, some 4, some 5), fun _ _ _ _ => 0⟩
    ⟨[3, 3, 5, 8], (1, 1, 1, 1), .SAME, false⟩ _ 3 3 5 8 rfl rfl rfl rfl rfl

/-- Spatial output sizes produced by `deconvCore`: the dynamic computation
uses the runtime spatial dimensions and the raw kernel tuple, the static
computation uses `get_shape` and the unpacked `kw`/`kh`; they coincide
whenever the tuple head matches the unpacked values. -/
theorem deconvCore_spatial (X : Tensor4) (param : ConvParam) (a b co ci : ℕ)
    (hk0 : param.kernel.getD 0 0 = a) (hk1 : param.kernel.getD 1 0 = b) :
    (∀ w h, X.static.2.1 = some w → X.static.2.2.1 = some h → 0 < w → 0 < h →
      X.dims.2.1 = w → X.dims.2.2.1 = h →
      ((deconvCore X param a b co ci).outDynamic.2.1 =
          w * param.stride.2.1 +
            (if param.pad = .VALID then param.kernel.getD 0 0 - 1 else 0) ∧
       (deconvCore X param a b co ci).outDynamic.2.2.1 =
          h * param.stride.2.2.1 +
            (if param.pad = .VALID then param.kernel.getD 1 0 - 1 else 0) ∧
       (deconvCore X param a b co ci).outStatic.2.1 =
          some ((deconvCore X param a b co ci).outDynamic.2.1) ∧
       (deconvCore X param a b co ci).outStatic.2.2.1 =
          some ((deconvCore X param a b co ci).outDynamic.2.2.1))) ∧
    ((pyTruthy X.static.2.1 && pyTruthy X.static.2.2.1) = false →
      (deconvCore X param a b co ci).outStatic = (none, none, none, none)) := by
  constructor
  · intro w h hw hh hw0 hh0 hdw hdh
    have hwt : pyTruthy (some w) = true := by simp [pyTruthy]; omega
    have hht : pyTruthy (some h) = true := by simp [pyTruthy]; omega
    simp only [deconvCore, hw, hh, hdw, hdh, hk0, hk1, Option.getD_some,
      hwt, hht, Bool.and_self, if_true]
    refine ⟨?_, ?_, ?_, ?_⟩ <;> trivial
  · intro hfalse
    simp only [deconvCore, hfalse]
    rfl

/-- Inversion of a successful `deconv` call: every success path runs
`deconvCore` with `kw` and `kh` equal to the first two components of the
kernel tuple. -/
theorem deconv_ok_inv (X : Tensor4) (param : ConvParam) (r : DeconvResult)
    (hok : deconv X param = .ok r) :
    ∃ a b co ci, r = deconvCore X param a b co ci ∧
      param.kernel.getD 0 0 = a ∧ param.kernel.getD 1 0 = b := by
  unfold deconv at hok
  by_cases hct : pyTruthy X.static.2.2.2 = true
  · simp only [hct, if_true] at hok
    split at hok
    · rename_i kw kh cout heq
      rw [Except.ok.injEq] at hok
      exact ⟨kw, kh, cout, _, hok.symm, by rw [heq]; rfl, by rw [heq]; rfl⟩
    · rename_i kw kh cin_ cout heq
      split at hok
      · rw [Except.ok.injEq] at hok
        exact ⟨kw, kh, cout, _, hok.symm, by rw [heq]; rfl, by rw [heq]; rfl⟩
      · exact absurd hok (by simp)
    · exact absurd hok (by simp)
  · simp only [if_neg hct] at hok
    split at hok
    · rename_i kw kh cout cin heq
      rw [Except.ok.injEq] at hok
      exact ⟨kw, kh, cout, cin, hok.symm, by rw [heq]; rfl, by rw [heq]; rfl⟩
    · exact absurd hok (by simp)

/-- **C3.** For every successful `deconv` call, the output spatial size per
axis equals `input_size * stride`, plus `kernel_size - 1` when the pad mode
is `VALID`; when the static spatial shape is known (and matches the runtime
shape) the dynamic and static computations agree and the declared static
shape is set to that value, and otherwise the declared shape is left fully
unknown and only the dynamic shape is used. -/
theorem deconv_output_spatial_shape
    (X : Tensor4) (param : ConvParam) (r : DeconvResult)
    (hok : deconv X param = .ok r) :
    (∀ w h, X.static.2.1 = some w → X.static.2.2.1 = some h → 0 < w → 0 < h →
      X.dims.2.1 = w → X.dims.2.2.1 = h →
      (r.outDynamic.2.1 = w * param.stride.2.1 +
          (if param.pad = .VALID then param.kernel.getD 0 0 - 1 else 0) ∧
       r.outDynamic.2.2.1 = h * param.stride.2.2.1 +
          (if param.pad = .VALID then param.kernel.getD 1 0 - 1 else 0) ∧
       r.outStatic.2.1 = some r.outDynamic.2.1 ∧
       r.outStatic.2.2.1 = some r.outDynamic.2.2.1)) ∧
    ((pyTruthy X.static.2.1 && pyTruthy X.static.2.2.1) = false →
      r.outStatic = (none, none, none, none)) := by
  obtain ⟨a, b, co, ci, hr, hk0, hk1⟩ := deconv_ok_inv X param r hok
  subst hr
  exact deconvCore_spatial X param a b co ci hk0 hk1

/-- Witness for C3: a `1 × 4 × 4 × 5` input, kernel `(3, 3, 7)`, stride
`(1, 2, 2, 1)`, `VALID` padding: spatial output `4 * 2 + (3 - 1) = 10`. -/
theorem deconv_output_spatial_shape_witness :
    (⟨[3, 3, 7, 5], (1, 10, 10, 7), (some 1, some 10, some 10, some 7)⟩ :
        DeconvResult).outDynamic.2.1 =
      4 * 2 + (if Pad.VALID = Pad.VALID then [3, 3, 7].getD 0 0 - 1 else 0) ∧
    (⟨[3, 3, 7, 5], (1, 10, 10, 7), (some 1, some 10, some 10, some 7)⟩ :
        DeconvResult).outStatic.2.1 =
      some (⟨[3, 3, 7, 5], (1, 10, 10, 7), (some 1, some 10, some 10, some 7)⟩ :
        DeconvResult).outDynamic.2.1 := by
  have h := (deconv_output_spatial_shape
    ⟨(1, 4, 4, 5), (some 1, some 4, some 4, some 5), fun _ _ _ _ => 0⟩
    ⟨[3, 3, 7], (1, 2, 2, 1), .VALID, false⟩
    ⟨[3, 3, 7, 5], (1, 10, 10, 7), (some 1, some 10, some 10, some 7)⟩
    rfl).1 4 4 rfl rfl (by decide) (by decide) rfl rfl
  exact ⟨h.1, h.2.2.1⟩

/-- Specification-side sequential application (following the claimed
behaviour of the stack combinator): apply the layers in order, applying
the `i`-th nonlinearity after the `i`-th layer, except after the final
layer when `raw_output` is set. -/
def applyLayersAux {α P : Type} (func : α → P → ℕ → α) (fs : List (α → α))
    (raw_output : Bool) : ℕ → α → List P → α
  | _, X, [] => X
  | i, X, p :: rest =>
      let y := func X p i
      let y2 := if rest.isEmpty = true ∧ raw_output = true then y else fs.getD i id y
      applyLayersAux func fs raw_output (i + 1) y2 rest

/-- Specification-side stack: `applyLayersAux` started at layer index 0. -/
def applyLayers {α P : Type} (func : α → P → ℕ → α) (fs : List (α → α))
    (raw_output : Bool) (X : α) (params : List P) : α :=
  applyLayersAux func fs raw_output 0 X params

/-- `stackLoop` never fails when the nonlinearity list covers all layers,
and computes the specification-side sequential application. -/
theorem stackLoop_ok {α P : Type} (func : α → P → ℕ → α) (fs : List (α → α))
    (n : ℕ) (raw : Bool) (hf : n ≤ fs.length) :
    ∀ (ps : List P) (i : ℕ) (X : α), i + ps.length = n →
      stackLoop func fs n raw i X ps =
        .ok (applyLayersAux func fs raw i X ps) := by
  intro ps
  induction ps with
  | nil => intro i X hi; rfl
  | cons p rest ih =>
    intro i X hi
    simp only [List.length_cons] at hi
    have hil : i < fs.length := by omega
    have hget : fs.get? i = some (fs.get ⟨i, hil⟩) := List.get?_eq_get hil
    have hgetD : fs.getD i id = fs.get ⟨i, hil⟩ := by
      rw [List.getD_eq_getElem?_getD, ← List.get?_eq_getElem?, hget]; rfl
    simp only [stackLoop, applyLayersAux]
    by_cases hc : ¬raw = true ∨ i + 1 < n
    · rw [if_pos hc, hget]
      have hrest : ¬(rest.isEmpty = true ∧ raw = true) := by
        rcases hc with hc | hc
        · exact fun hand => hc hand.2
        · intro hand
          rw [List.isEmpty_iff] at hand
          rw [hand.1] at hi
          simp at hi
          omega
      rw [if_neg hrest, hgetD]
      exact ih (i + 1) _ (by omega)
    · rw [if_neg hc]
      push_neg at hc
      have hrest : rest = [] := by
        have := hc.2
        have : rest.length = 0 := by omega
        exact List.length_eq_zero.mp this
      subst hrest
      rw [if_pos ⟨rfl, hc.1⟩]
      rfl

/-- **C5.** A stack built by `make_stack` applies the layers in order,
applies the `i`-th nonlinearity after the `i`-th layer for every non-final
layer, applies the nonlinearity after the final layer exactly when
`raw_output` is false (all captured by equality with the
specification-side `applyLayers`), and a single non-list nonlinearity is
used after every layer (it behaves as the per-layer list holding that
function once per layer). -/
theorem make_stack_applies_layers_in_order {α P : Type} (func : α → P → ℕ → α)
    (X : α) (params : List P) (fs : List (α → α)) (f : α → α) (raw : Bool)
    (hlen : fs.length = params.length) :
    generic_stack func X params (.list fs) raw =
      .ok (applyLayers func fs raw X params) ∧
    generic_stack func X params (.single f) raw =
      generic_stack func X params (.list (List.replicate params.length f)) raw := by
  constructor
  · exact stackLoop_ok func fs params.length raw (by omega) params 0 X (by omega)
  · rfl

/-- Witness for C5: three affine-like layers `x ↦ x + p`, doubling
nonlinearity, `raw_output = true`: the nonlinearity fires after layers 1
and 2 but not after layer 3: `((0+1)*2 + 2)*2 + 3 = 11`. -/
theorem make_stack_applies_layers_in_order_witness :
    generic_stack (fun (x : ℚ) (p : ℚ) (_ : ℕ) => x + p) 0 [1, 2, 3]
        (.list [fun x => 2 * x, fun x => 2 * x, fun x => 2 * x]) true =
      .ok (applyLayers (fun (x : ℚ) (p : ℚ) (_ : ℕ) => x + p)
        [fun x => 2 * x, fun x => 2 * x, fun x => 2 * x] true 0 [1, 2, 3]) ∧
    applyLayers (fun (x : ℚ) (p : ℚ) (_ : ℕ) => x + p)
        [fun x => 2 * x, fun x => 2 * x, fun x => 2 * x] true 0 [1, 2, 3] = 11 :=
  ⟨(make_stack_applies_layers_in_order
      (fun (x : ℚ) (p : ℚ) (_ : ℕ) => x + p) 0 [1, 2, 3]
      [fun x => 2 * x, fun x => 2 * x, fun x => 2 * x] id true rfl).1,
   by norm_num [applyLayers, applyLayersAux]⟩

/-- The exact failure condition of `stackLoop`: starting at index `i`, it
fails exactly when some layer whose nonlinearity would be applied indexes
past the end of the nonlinearity list. -/
theorem stackLoop_error_iff {α P : Type} (func : α → P → ℕ → α)
    (fs : List (α → α)) (n : ℕ) (raw : Bool) :
    ∀ (ps : List P) (i : ℕ) (X : α), i + ps.length = n →
      ((stackLoop func fs n raw i X ps).isOk = false ↔
        (if raw then max fs.length i + 1 < n else max fs.length i < n)) := by
  intro ps
  induction ps with
  | nil =>
    intro i X hi
    simp only [List.length_nil, Nat.add_zero] at hi
    subst hi
    constructor
    · intro h
      exact Bool.noConfusion h
    · intro h
      split at h <;> omega
  | cons p rest ih =>
    intro i X hi
    simp only [List.length_cons] at hi
    simp only [stackLoop]
    by_cases hc : ¬raw = true ∨ i + 1 < n
    · rw [if_pos hc]
      rcases hlt : fs.get? i with _ | f0
      · rw [List.get?_eq_none] at hlt
        simp only [Except.isOk]
        constructor
        · intro _
          rcases hc with hc | hc
          · have : raw = false := by
              cases raw
              · rfl
              · exact absurd rfl hc
            rw [this]
            simp only [if_false, Bool.false_eq_true]
            omega
          · split <;> omega
        · intro _; rfl
      · have hil : i < fs.length := by
          by_contra hge
          rw [List.get?_eq_none.mpr (by omega)] at hlt
          exact absurd hlt (by simp)
        rw [ih (i + 1) (f0 _) (by omega)]
        have : max fs.length (i + 1) = max fs.length i := by omega
        rw [this]
    · rw [if_neg hc]
      push_neg at hc
      have hraw : raw = true := hc.1
      have hrest : rest = [] := by
        have := hc.2
        have : rest.length = 0 := by omega
        exact List.length_eq_zero.mp this
      subst hrest
      rw [ih (i + 1) _ (by omega), hraw]
      simp only [if_true]
      omega

/-- **C6** (amended).  Calling a `make_stack`-produced stack with a
per-layer nonlinearity list fails (with Python's `IndexError`) exactly
when the list is shorter than the number of nonlinearity applications —
`n - 1` of them when `raw_output` is set, `n` otherwise, for `n` layer
specs.  In particular a longer list never fails (extra entries are simply
ignored), and with `raw_output` a list shorter by exactly one succeeds. -/
theorem generic_stack_list_length_failure {α P : Type} (func : α → P → ℕ → α)
    (X : α) (params : List P) (fs : List (α → α)) (raw : Bool) :
    (generic_stack func X params (.list fs) raw).isOk = false ↔
      fs.length < (if raw then params.length - 1 else params.length) := by
  rw [generic_stack]
  rw [stackLoop_error_iff func fs params.length raw params 0 X (by omega)]
  cases raw <;> simp <;> omega

/-- Counterexample to C6 as stated: a stack of one layer called with a
per-layer list of two nonlinearities (a length mismatch) does not fail —
it succeeds and returns the first nonlinearity applied to the layer
output. -/
theorem generic_stack_longer_list_succeeds :
    generic_stack (fun (x : ℚ) (p : ℚ) (_ : ℕ) => x + p) 0 [(37 : ℚ)]
        (.list [fun x => 2 * x, fun x => 5 * x]) false = .ok 74 := by
  norm_num [generic_stack, stackLoop, List.get?]

/-- **C7** (code-bug evidence).  `norm`'s docstring says it computes a
norm "Like np.linalg.norm", and the spec reads `(sum(|X|^p along
axis))^(1/p)` — but the code computes `tf.reduce_sum(tf.pow(X, p), ...)`
with no absolute value.  On the vector `[-1.0]` with `p = 1` and
`root = False` the code yields `-1`, while the claimed value
`sum(|X|^p) = 1`; a norm can therefore come out negative. -/
theorem norm_omits_absolute_value :
    (norm ⟨[1], fun _ => -1⟩ [0] false 1 false).val [] = -1 ∧
    ((-1 : ℝ) ≠ |(-1 : ℝ)| ^ (1 : ℝ)) := by
  constructor
  · simp [norm, reduceSum, squeezeAxes, reduceSumKeep, reduceAxisKeep, tfMap,
      expandIdx, Real.rpow_one]
  · rw [abs_neg, abs_one, Real.one_rpow]
    norm_num

/-- Setting the varied axis entry commutes with broadcast-index adjustment
when the new entry is within the axis extent. -/
theorem bcIdx_set_lt :
    ∀ (s l : List ℕ) (a j : ℕ), j < s.getD a 0 →
      bcIdx s (l.set a j) = (bcIdx s l).set a j := by
  intro s
  induction s with
  | nil => intro l a j h; simp [List.getD] at h
  | cons s0 ss ih =>
    intro l a j h
    cases l with
    | nil => cases a <;> simp [bcIdx]
    | cons l0 ls =>
      cases a with
      | zero =>
        simp only [List.getD_cons_zero] at h
        have hs0 : ¬s0 = 1 ∨ j = 0 := by omega
        rcases hs0 with hs0 | hj
        · simp [bcIdx, List.set, hs0]
        · subst hj
          simp [bcIdx, List.set]
      | succ a =>
        simp only [List.getD_cons_succ] at h
        simp [bcIdx, List.set, ih ls a j h]

/-- Setting a shape entry to `1` makes the broadcast read that axis at
`0`, independently of the index entry there. -/
theorem bcIdx_set_shape_one :
    ∀ (s l : List ℕ) (a j : ℕ), a < s.length → a < l.length →
      bcIdx (s.set a 1) (l.set a j) = (bcIdx s l).set a 0 := by
  intro s
  induction s with
  | nil => intro l a j hs _; simp at hs
  | cons s0 ss ih =>
    intro l a j _ hl
    cases l with
    | nil => simp at hl
    | cons l0 ls =>
      cases a with
      | zero => simp [bcIdx, List.set]
      | succ a =>
        simp only [List.length_cons, Nat.succ_lt_succ_iff] at *
        simp [bcIdx, List.set, ih ls a j (by omega) (by omega)]

/-- **C9** (amended).  For every non-negative tensor and valid axis whose
slice-sum at the given coordinate is strictly positive, `normalize`
summed along that axis equals `1` at that coordinate.  (The positivity
hypothesis is necessary: see the zero-tensor counterexample.) -/
theorem normalize_sums_to_one (X : TensorR) (a : ℕ) (idx : List ℕ)
    (ha : a < X.shape.length) (hal : a < idx.length)
    (_hnn : ∀ i, 0 ≤ X.val i)
    (hpos : 0 < ∑ j ∈ Finset.range (X.shape.getD a 0),
      X.val (bcIdx X.shape (idx.set a j))) :
    ∑ j ∈ Finset.range (X.shape.getD a 0),
      (normalize X [a]).val (idx.set a j) = 1 := by
  have hterm : ∀ j ∈ Finset.range (X.shape.getD a 0),
      (normalize X [a]).val (idx.set a j) =
        X.val (bcIdx X.shape (idx.set a j)) /
          ∑ j' ∈ Finset.range (X.shape.getD a 0),
            X.val (bcIdx X.shape (idx.set a j')) := by
    intro j hj
    simp only [normalize, reduceSumKeep, List.foldl, tfDiv, tfBinop,
      reduceAxisKeep]
    congr 1
    refine Finset.sum_congr rfl ?_
    intro j' hj'
    rw [Finset.mem_range] at hj'
    rw [bcIdx_set_shape_one X.shape idx a j ha hal, List.set_set,
      ← bcIdx_set_lt X.shape idx a j' hj']
  rw [Finset.sum_congr rfl hterm, ← Finset.sum_div]
  exact div_self (ne_of_gt hpos)

/-- Witness for C9 (amended) at a concrete input: the vector `[1, 2]`
normalized along axis 0 sums to `1/3 + 2/3 = 1`. -/
theorem normalize_sums_to_one_witness :
    ∑ j ∈ Finset.range ((⟨[2], fun i => (i.getD 0 0 : ℝ) + 1⟩ : TensorR).shape.getD 0 0),
      (normalize ⟨[2], fun i => (i.getD 0 0 : ℝ) + 1⟩ [0]).val ([0].set 0 j) = 1 :=
  normalize_sums_to_one ⟨[2], fun i => (i.getD 0 0 : ℝ) + 1⟩ 0 [0]
    (by decide) (by decide) (fun i => by positivity)
    (by norm_num [bcIdx, Finset.sum_range_succ])

/-- Counterexample to C9 as stated: the all-zero vector of length 2 is
non-negative, but its normalization sums to `0` along the axis, not `1`
(the slice-sum is zero, so the division does not produce a probability
vector; in floating point the entries are NaN). -/
theorem normalize_zero_tensor_not_one :
    ∑ j ∈ Finset.range ((⟨[2], fun _ => 0⟩ : TensorR).shape.getD 0 0),
      (normalize ⟨[2], fun _ => (0 : ℝ)⟩ [0]).val ([0].set 0 j) ≠ 1 := by
  norm_num [normalize, reduceSumKeep, reduceAxisKeep, tfDiv, tfBinop, bcIdx,
    Finset.sum_range_succ]

/-- A broadcast entry read at a valid index is the index itself. -/
theorem bc_entry_eq (d x : ℕ) (h : x < d) : (if d = 1 then 0 else x) = x := by
  split
  · omega
  · rfl

/-- `expandIdx` on the concrete axis/rank data used by `spatial_softmax`. -/
theorem expandIdx_one_three (x y : ℕ) : expandIdx [1] 0 3 [x, y] = [x, 0, y] := rfl

/-- `expandIdx` for axis 1 at rank 4. -/
theorem expandIdx_one_four (x y z : ℕ) :
    expandIdx [1] 0 4 [x, y, z] = [x, 0, y, z] := rfl

/-- `expandIdx` for axis 2 at rank 4. -/
theorem expandIdx_two_four (x y z : ℕ) :
    expandIdx [2] 0 4 [x, y, z] = [x, y, 0, z] := rfl

/-- The width-marginal tensor `fx = reduce_sum(exp X, [1])` of
`spatial_softmax`, evaluated pointwise. -/
theorem ss_f0x_val (X : TensorR) (b w h c : ℕ) (hs : X.shape = [b, w, h, c])
    (x y z : ℕ) :
    (reduceSum (tfMap Real.exp X) [1] false).val [x, y, z] =
      ∑ a ∈ Finset.range w, Real.exp (X.val [x, a, y, z]) := by
  simp [reduceSum, squeezeAxes, reduceSumKeep, reduceAxisKeep, tfMap, hs,
    expandIdx_one_four]

/-- The height-marginal tensor `fy = reduce_sum(exp X, [2])` of
`spatial_softmax`, evaluated pointwise. -/
theorem ss_f0y_val (X : TensorR) (b w h c : ℕ) (hs : X.shape = [b, w, h, c])
    (x y z : ℕ) :
    (reduceSum (tfMap Real.exp X) [2] false).val [x, y, z] =
      ∑ j ∈ Finset.range h, Real.exp (X.val [x, y, j, z]) := by
  simp [reduceSum, squeezeAxes, reduceSumKeep, reduceAxisKeep, tfMap, hs,
    expandIdx_two_four]

/-- Shape of the width marginal: `[b, h, c]`. -/
theorem ss_f0x_shape (X : TensorR) (b w h c : ℕ) (hs : X.shape = [b, w, h, c]) :
    (reduceSum (tfMap Real.exp X) [1] false).shape = [b, h, c] := by
  simp [reduceSum, squeezeAxes, reduceSumKeep, reduceAxisKeep, tfMap, hs]
  rfl

/-- Shape of the height marginal: `[b, w, c]`. -/
theorem ss_f0y_shape (X : TensorR) (b w h c : ℕ) (hs : X.shape = [b, w, h, c]) :
    (reduceSum (tfMap Real.exp X) [2] false).shape = [b, w, c] := by
  simp [reduceSum, squeezeAxes, reduceSumKeep, reduceAxisKeep, tfMap, hs]
  rfl

/-- The normalized width marginal `fx /= reduce_sum(fx, [1], keep_dims)`,
evaluated pointwise at a valid index. -/
theorem ss_f1x_val (X : TensorR) (b w h c : ℕ) (hs : X.shape = [b, w, h, c])
    (x y z : ℕ) (hx : x < b) (hy : y < h) (hz : z < c) :
    (tfDiv (reduceSum (tfMap Real.exp X) [1] false)
        (reduceSumKeep (reduceSum (tfMap Real.exp X) [1] false) [1])).val
      [x, y, z] =
      (∑ a ∈ Finset.range w, Real.exp (X.val [x, a, y, z])) /
        ∑ j' ∈ Finset.range h, ∑ a ∈ Finset.range w,
          Real.exp (X.val [x, a, j', z]) := by
  have hf0s := ss_f0x_shape X b w h c hs
  simp only [tfDiv, tfBinop, reduceSumKeep, List.foldl, reduceAxisKeep, hf0s,
    bcIdx, List.set_cons_zero, List.set_cons_succ, List.getD_cons_zero,
    List.getD_cons_succ, if_pos rfl]
  rw [bc_entry_eq b x hx, bc_entry_eq h y hy, bc_entry_eq c z hz]
  simp only [ss_f0x_val X b w h c hs]

/-- The normalized height marginal `fy /= reduce_sum(fy, [1], keep_dims)`,
evaluated pointwise at a valid index. -/
theorem ss_f1y_val (X : TensorR) (b w h c : ℕ) (hs : X.shape = [b, w, h, c])
    (x y z : ℕ) (hx : x < b) (hy : y < w) (hz : z < c) :
    (tfDiv (reduceSum (tfMap Real.exp X) [2] false)
        (reduceSumKeep (reduceSum (tfMap Real.exp X) [2] false) [1])).val
      [x, y, z] =
      (∑ j ∈ Finset.range h, Real.exp (X.val [x, y, j, z])) /
        ∑ i' ∈ Finset.range w, ∑ j ∈ Finset.range h,
          Real.exp (X.val [x, i', j, z]) := by
  have hf0s := ss_f0y_shape X b w h c hs
  simp only [tfDiv, tfBinop, reduceSumKeep, List.foldl, reduceAxisKeep, hf0s,
    bcIdx, List.set_cons_zero, List.set_cons_succ, List.getD_cons_zero,
    List.getD_cons_succ, if_pos rfl]
  rw [bc_entry_eq b x hx, bc_entry_eq w y hy, bc_entry_eq c z hz]
  simp only [ss_f0y_val X b w h c hs]

/-- One-axis reduction (axis 1, `keep_dims=False`) of a rank-3 tensor,
evaluated pointwise. -/
theorem reduceSum_one_val3 (t : TensorR) (a b c : ℕ) (ht : t.shape = [a, b, c])
    (x y : ℕ) :
    (reduceSum t [1] false).val [x, y] =
      ∑ j ∈ Finset.range b, t.val [x, j, y] := by
  simp [reduceSum, squeezeAxes, reduceSumKeep, reduceAxisKeep, ht,
    expandIdx_one_three]

/-- The `fx` half of `spatial_softmax` computes, per batch row `i` and
channel `k`, the expectation of the width linspace under the normalized
sum-over-axis-1 marginal (which, per the source, is indexed by the height
axis — the pipeline requires `w = h` to broadcast). -/
theorem ssFx_formula (X : TensorR) (b w h c i k : ℕ)
    (hs : X.shape = [b, w, h, c]) (hw : w = h) (h0 : 0 < h)
    (hi : i < b) (hk : k < c) :
    (ssFx X).val [i, k] =
      ∑ j ∈ Finset.range h,
        ((∑ a ∈ Finset.range h, Real.exp (X.val [i, a, j, k])) /
          ∑ j' ∈ Finset.range h, ∑ a ∈ Finset.range h,
            Real.exp (X.val [i, a, j', k])) *
        (if h ≤ 1 then 0 else (j : ℝ) / ((h : ℝ) - 1)) := by
  subst hw
  have hb : 0 < b := by omega
  have hc : 0 < c := by omega
  have hf0s := ss_f0x_shape X b w w c hs
  have h2 : (reduceSumKeep (reduceSum (tfMap Real.exp X) [1] false) [1]).shape =
      [b, 1, c] := by
    simp only [reduceSumKeep, List.foldl, reduceAxisKeep, hf0s,
      List.set_cons_zero, List.set_cons_succ]
  have hf1s : (tfDiv (reduceSum (tfMap Real.exp X) [1] false)
      (reduceSumKeep (reduceSum (tfMap Real.exp X) [1] false) [1])).shape =
      [b, w, c] := by
    simp only [tfDiv, tfBinop, hf0s, h2, List.zipWith]
    rw [Nat.max_self, Nat.max_self, Nat.max_eq_left h0]
  have hMs : (tfMul (tfDiv (reduceSum (tfMap Real.exp X) [1] false)
      (reduceSumKeep (reduceSum (tfMap Real.exp X) [1] false) [1]))
      (linspace01 w)).shape = [b, w, c] := by
    simp only [tfMul, tfBinop, hf1s, linspace01, List.zipWith]
    rw [Nat.max_self, Nat.max_eq_left hb, Nat.max_eq_left hc]
  have hM : ssFx X =
      reduceSum (tfMul (tfDiv (reduceSum (tfMap Real.exp X) [1] false)
        (reduceSumKeep (reduceSum (tfMap Real.exp X) [1] false) [1]))
        (linspace01 w)) [1] false := by
    simp only [ssFx, hs, List.getD_cons_zero, List.getD_cons_succ]
  rw [hM, reduceSum_one_val3 _ b w c hMs i k]
  refine Finset.sum_congr rfl ?_
  intro j hj
  rw [Finset.mem_range] at hj
  simp only [tfMul, tfBinop, hf1s, linspace01, bcIdx,
    List.getD_cons_zero, List.getD_cons_succ]
  rw [bc_entry_eq b i hi, bc_entry_eq w j hj, bc_entry_eq c k hk]
  rw [ss_f1x_val X b w w c hs i j k hi hj hk]

/-- The `fy` half of `spatial_softmax` computes, per batch row `i` and
channel `k`, the expectation of the height linspace under the normalized
sum-over-axis-2 marginal (indexed by the width axis; requires `w = h`). -/
theorem ssFy_formula (X : TensorR) (b w h c i k : ℕ)
    (hs : X.shape = [b, w, h, c]) (hw : w = h) (h0 : 0 < h)
    (hi : i < b) (hk : k < c) :
    (ssFy X).val [i, k] =
      ∑ ii ∈ Finset.range h,
        ((∑ j ∈ Finset.range h, Real.exp (X.val [i, ii, j, k])) /
          ∑ i' ∈ Finset.range h, ∑ j ∈ Finset.range h,
            Real.exp (X.val [i, i', j, k])) *
        (if h ≤ 1 then 0 else (ii : ℝ) / ((h : ℝ) - 1)) := by
  subst hw
  have hb : 0 < b := by omega
  have hc : 0 < c := by omega
  have hf0s := ss_f0y_shape X b w w c hs
  have h2 : (reduceSumKeep (reduceSum (tfMap Real.exp X) [2] false) [1]).shape =
      [b, 1, c] := by
    simp only [reduceSumKeep, List.foldl, reduceAxisKeep, hf0s,
      List.set_cons_zero, List.set_cons_succ]
  have hf1s : (tfDiv (reduceSum (tfMap Real.exp X) [2] false)
      (reduceSumKeep (reduceSum (tfMap Real.exp X) [2] false) [1])).shape =
      [b, w, c] := by
    simp only [tfDiv, tfBinop, hf0s, h2, List.zipWith]
    rw [Nat.max_self, Nat.max_self, Nat.max_eq_left h0]
  have hMs : (tfMul (tfDiv (reduceSum (tfMap Real.exp X) [2] false)
      (reduceSumKeep (reduceSum (tfMap Real.exp X) [2] false) [1]))
      (linspace01 w)).shape = [b, w, c] := by
    simp only [tfMul, tfBinop, hf1s, linspace01, List.zipWith]
    rw [Nat.max_self, Nat.max_eq_left hb, Nat.max_eq_left hc]
  have hM : ssFy X =
      reduceSum (tfMul (tfDiv (reduceSum (tfMap Real.exp X) [2] false)
        (reduceSumKeep (reduceSum (tfMap Real.exp X) [2] false) [1]))
        (linspace01 w)) [1] false := by
    simp only [ssFy, hs, List.getD_cons_zero, List.getD_cons_succ]
  rw [hM, reduceSum_one_val3 _ b w c hMs i k]
  refine Finset.sum_congr rfl ?_
  intro j hj
  rw [Finset.mem_range] at hj
  simp only [tfMul, tfBinop, hf1s, linspace01, bcIdx,
    List.getD_cons_zero, List.getD_cons_succ]
  rw [bc_entry_eq b i hi, bc_entry_eq w j hj, bc_entry_eq c k hk]
  rw [ss_f1y_val X b w w c hs i j k hi hj hk]

/-- Shape of a `keep_dims` reduction along axis 1. -/
theorem reduceSumKeep_one_shape (t : TensorR) :
    (reduceSumKeep t [1]).shape = t.shape.set 1 1 := rfl

/-- Shape of a `keep_dims=False` reduction: the reduced positions are
dropped from the `keep_dims` shape. -/
theorem reduceSum_false_shape (t : TensorR) (axes : List ℕ) :
    (reduceSum t axes false).shape =
      ((reduceSumKeep t axes).shape.enum.filterMap
        fun p => if p.1 ∈ axes then none else some p.2) := rfl

/-- Shape of the `fx` half: one x-coordinate per channel, `[b, c]`. -/
theorem ssFx_shape (X : TensorR) (b w h c : ℕ)
    (hs : X.shape = [b, w, h, c]) (hw : w = h) (h0 : 0 < h)
    (hb : 0 < b) (hc : 0 < c) :
    (ssFx X).shape = [b, c] := by
  subst hw
  have hf0s := ss_f0x_shape X b w w c hs
  have h2 : (reduceSumKeep (reduceSum (tfMap Real.exp X) [1] false) [1]).shape =
      [b, 1, c] := by
    simp only [reduceSumKeep, List.foldl, reduceAxisKeep, hf0s,
      List.set_cons_zero, List.set_cons_succ]
  have hf1s : (tfDiv (reduceSum (tfMap Real.exp X) [1] false)
      (reduceSumKeep (reduceSum (tfMap Real.exp X) [1] false) [1])).shape =
      [b, w, c] := by
    simp only [tfDiv, tfBinop, hf0s, h2, List.zipWith]
    rw [Nat.max_self, Nat.max_self, Nat.max_eq_left h0]
  have hMs : (tfMul (tfDiv (reduceSum (tfMap Real.exp X) [1] false)
      (reduceSumKeep (reduceSum (tfMap Real.exp X) [1] false) [1]))
      (linspace01 w)).shape = [b, w, c] := by
    simp only [tfMul, tfBinop, hf1s, linspace01, List.zipWith]
    rw [Nat.max_self, Nat.max_eq_left hb, Nat.max_eq_left hc]
  have hM : ssFx X =
      reduceSum (tfMul (tfDiv (reduceSum (tfMap Real.exp X) [1] false)
        (reduceSumKeep (reduceSum (tfMap Real.exp X) [1] false) [1]))
        (linspace01 w)) [1] false := by
    simp only [ssFx, hs, List.getD_cons_zero, List.getD_cons_succ]
  rw [hM, reduceSum_false_shape, reduceSumKeep_one_shape, hMs]
  rfl

/-- Shape of the `fy` half: one y-coordinate per channel, `[b, c]`. -/
theorem ssFy_shape (X : TensorR) (b w h c : ℕ)
    (hs : X.shape = [b, w, h, c]) (hw : w = h) (h0 : 0 < h)
    (hb : 0 < b) (hc : 0 < c) :
    (ssFy X).shape = [b, c] := by
  subst hw
  have hf0s := ss_f0y_shape X b w w c hs
  have h2 : (reduceSumKeep (reduceSum (tfMap Real.exp X) [2] false) [1]).shape =
      [b, 1, c] := by
    simp only [reduceSumKeep, List.foldl, reduceAxisKeep, hf0s,
      List.set_cons_zero, List.set_cons_succ]
  have hf1s : (tfDiv (reduceSum (tfMap Real.exp X) [2] false)
      (reduceSumKeep (reduceSum (tfMap Real.exp X) [2] false) [1])).shape =
      [b, w, c] := by
    simp only [tfDiv, tfBinop, hf0s, h2, List.zipWith]
    rw [Nat.max_self, Nat.max_self, Nat.max_eq_left h0]
  have hMs : (tfMul (tfDiv (reduceSum (tfMap Real.exp X) [2] false)
      (reduceSumKeep (reduceSum (tfMap Real.exp X) [2] false) [1]))
      (linspace01 w)).shape = [b, w, c] := by
    simp only [tfMul, tfBinop, hf1s, linspace01, List.zipWith]
    rw [Nat.max_self, Nat.max_eq_left hb, Nat.max_eq_left hc]
  have hM : ssFy X =
      reduceSum (tfMul (tfDiv (reduceSum (tfMap Real.exp X) [2] false)
        (reduceSumKeep (reduceSum (tfMap Real.exp X) [2] false) [1]))
        (linspace01 w)) [1] false := by
    simp only [ssFy, hs, List.getD_cons_zero, List.getD_cons_succ]
  rw [hM, reduceSum_false_shape, reduceSumKeep_one_shape, hMs]
  rfl

/-- The packing layout C4 claims for `spatial_softmax`: one `(x, y)` pair
per channel, packed pairwise along the channel axis — entry `2k` is
channel `k`'s x value, entry `2k + 1` its y value. -/
noncomputable def pairwisePack (X : TensorR) : TensorR :=
  ⟨[X.shape.getD 0 0, 2 * X.shape.getD 3 0],
   fun idx =>
     if idx.getD 1 0 % 2 = 0 then (ssFx X).val [idx.getD 0 0, idx.getD 1 0 / 2]
     else (ssFy X).val [idx.getD 0 0, idx.getD 1 0 / 2]⟩

/-- The input of the C4 counterexample: shape `1 × 2 × 2 × 2`; channel 1
carries `log 2` on its `j = 1` height slice, channel 0 is identically 0. -/
noncomputable def ssExample : TensorR :=
  ⟨[1, 2, 2, 2],
   fun idx => if idx.getD 3 0 = 1 ∧ idx.getD 2 0 = 1 then Real.log 2 else 0⟩

/-- **C4** counterexample.  On the concrete `1 × 2 × 2 × 2` input
`ssExample`, entry 1 of `spatial_softmax` is channel 1's x value `2/3`
(the output is `[x₀, x₁, y₀, y₁]`), while the claimed pairwise packing
`[x₀, y₀, x₁, y₁]` puts channel 0's y value `1/2` there: the claim's
layout disagrees with the code's at index `[0, 1]`. -/
theorem spatial_softmax_not_pairwise :
    (spatial_softmax ssExample).val [0, 1] ≠ (pairwisePack ssExample).val [0, 1] := by
  have hs : ssExample.shape = [1, 2, 2, 2] := rfl
  have hx : (ssFx ssExample).val [0, 1] = 2 / 3 := by
    rw [ssFx_formula ssExample 1 2 2 2 0 1 hs rfl (by norm_num) (by norm_num)
      (by norm_num)]
    norm_num [ssExample, Finset.sum_range_succ, Real.exp_log]
  have hy : (ssFy ssExample).val [0, 0] = 1 / 2 := by
    rw [ssFy_formula ssExample 1 2 2 2 0 0 hs rfl (by norm_num) (by norm_num)
      (by norm_num)]
    norm_num [ssExample, Finset.sum_range_succ, Real.exp_log]
  have hxs := ssFx_shape ssExample 1 2 2 2 hs rfl (by norm_num) (by norm_num)
    (by norm_num)
  have hL : (spatial_softmax ssExample).val [0, 1] = 2 / 3 := by
    simp only [spatial_softmax, tfConcat, hxs, List.getD_cons_zero,
      List.getD_cons_succ]
    rw [if_pos (by norm_num : (1 : ℕ) < 2)]
    exact hx
  have hR : (pairwisePack ssExample).val [0, 1] = 1 / 2 := by
    simp only [pairwisePack, List.getD_cons_zero, List.getD_cons_succ]
    rw [if_neg (by norm_num)]
    norm_num
    exact hy
  rw [hL, hR]
  norm_num

/-- **C4** (amended).  For every rank-4 input of shape `[b, w, h, c]` (the
pipeline needs `w = h` to broadcast), `spatial_softmax` returns one
expected-coordinate pair per channel, but packed as the block of all
channels' x values followed by the block of all channels' y values along
axis 1 (shape `[b, 2c]`), not as interleaved `(x, y)` pairs: entry `k < c`
is channel `k`'s x expectation and entry `c + k` is channel `k`'s y
expectation, each an explicit normalized-marginal expectation of the
`[0, 1]` linspace. -/
theorem spatial_softmax_block_packing (X : TensorR) (b w h c i k : ℕ)
    (hs : X.shape = [b, w, h, c]) (hw : w = h) (h0 : 0 < h)
    (hi : i < b) (hk2 : k < 2 * c) :
    (spatial_softmax X).shape = [b, 2 * c] ∧
    (k < c → (spatial_softmax X).val [i, k] =
      ∑ j ∈ Finset.range h,
        ((∑ a ∈ Finset.range h, Real.exp (X.val [i, a, j, k])) /
          ∑ j' ∈ Finset.range h, ∑ a ∈ Finset.range h,
            Real.exp (X.val [i, a, j', k])) *
        (if h ≤ 1 then 0 else (j : ℝ) / ((h : ℝ) - 1))) ∧
    (c ≤ k → (spatial_softmax X).val [i, k] =
      ∑ ii ∈ Finset.range h,
        ((∑ j ∈ Finset.range h, Real.exp (X.val [i, ii, j, k - c])) /
          ∑ i' ∈ Finset.range h, ∑ j ∈ Finset.range h,
            Real.exp (X.val [i, i', j, k - c])) *
        (if h ≤ 1 then 0 else (ii : ℝ) / ((h : ℝ) - 1))) := by
  have hb : 0 < b := by omega
  have hc : 0 < c := by omega
  have hxs := ssFx_shape X b w h c hs hw h0 hb hc
  have hys := ssFy_shape X b w h c hs hw h0 hb hc
  refine ⟨?_, ?_, ?_⟩
  · simp only [spatial_softmax, tfConcat, hxs, hys, List.getD_cons_zero,
      List.getD_cons_succ, List.set_cons_zero, List.set_cons_succ]
    rw [two_mul]
  · intro hk
    simp only [spatial_softmax, tfConcat, hxs, List.getD_cons_zero,
      List.getD_cons_succ]
    rw [if_pos hk]
    exact ssFx_formula X b w h c i k hs hw h0 hi hk
  · intro hk
    simp only [spatial_softmax, tfConcat, hxs, List.getD_cons_zero,
      List.getD_cons_succ, List.set_cons_zero, List.set_cons_succ]
    rw [if_neg (by omega)]
    exact ssFy_formula X b w h c i (k - c) hs hw h0 hi (by omega)

/-- Witness for C4 (amended) at the concrete input `ssExample`
(`b = 1`, `w = h = 2`, `c = 2`, entry `[0, 1]`). -/
theorem spatial_softmax_block_packing_witness :
    (spatial_softmax ssExample).shape = [1, 2 * 2] ∧
    (1 < 2 → (spatial_softmax ssExample).val [0, 1] =
      ∑ j ∈ Finset.range 2,
        ((∑ a ∈ Finset.range 2, Real.exp (ssExample.val [0, a, j, 1])) /
          ∑ j' ∈ Finset.range 2, ∑ a ∈ Finset.range 2,
            Real.exp (ssExample.val [0, a, j', 1])) *
        (if 2 ≤ 1 then 0 else (j : ℝ) / ((2 : ℝ) - 1))) ∧
    (2 ≤ 1 → (spatial_softmax ssExample).val [0, 1] =
      ∑ ii ∈ Finset.range 2,
        ((∑ j ∈ Finset.range 2, Real.exp (ssExample.val [0, ii, j, 1 - 2])) /
          ∑ i' ∈ Finset.range 2, ∑ j ∈ Finset.range 2,
            Real.exp (ssExample.val [0, i', j, 1 - 2])) *
        (if 2 ≤ 1 then 0 else (ii : ℝ) / ((2 : ℝ) - 1))) :=
  spatial_softmax_block_packing ssExample 1 2 2 2 0 1 rfl rfl (by norm_num)
    (by norm_num) (by norm_num)

end TfUtils
